import Mathlib

set_option maxHeartbeats 1000000

/-!
Verification of the Eva session-and-memory engine: a shallow embedding of
the connection registry (`app/api/websocket.py`), the dialogue session
multiplexer (`app/services/gemini_service.py`), the streaming chat endpoint
(`app/api/chat.py`), the long-term memory creation path
(`app/api/memory.py`), the TTS error path (`app/services/tts_service.py`),
and the intent classifier, together with proofs of the specification's
claims about them.

Python dicts are modelled as insertion-ordered association lists with
first-match lookup, in-place value replacement, and single-entry removal,
matching CPython dict semantics.
-/

/-! ## Insertion-ordered dictionaries (Python `dict` semantics) -/

/-- First-match lookup, `d.get(k)` / `d[k]`. -/
def dictGet {α : Type} : List (String × α) → String → Option α
  | [], _ => none
  | (k', v) :: rest, k => if k' = k then some v else dictGet rest k

/-- `d[k] = v`: replace the value in place if the key is present (its
position is kept, as in CPython), otherwise append a new entry. -/
def dictSet {α : Type} : List (String × α) → String → α → List (String × α)
  | [], k, v => [(k, v)]
  | (k', v') :: rest, k, v =>
    if k' = k then (k, v) :: rest else (k', v') :: dictSet rest k v

/-- `del d[k]`: remove the (unique, under well-formedness) entry for `k`;
on a raw association list this removes the first occurrence. -/
def dictRemove {α : Type} : List (String × α) → String → List (String × α)
  | [], _ => []
  | (k', v') :: rest, k =>
    if k' = k then rest else (k', v') :: dictRemove rest k

/-- Number of entries stored under key `k`. -/
def countKey {α : Type} (l : List (String × α)) (k : String) : Nat :=
  (l.map Prod.fst).count k

theorem dictGet_dictSet_same {α : Type} (l : List (String × α)) (k : String) (v : α) :
    dictGet (dictSet l k v) k = some v := by
  induction l with
  | nil => simp [dictSet, dictGet]
  | cons p rest ih =>
    by_cases h : p.1 = k
    · simp [dictSet, h, dictGet]
    · simp [dictSet, h, dictGet, ih]

theorem dictGet_dictSet_ne {α : Type} (l : List (String × α)) (k k' : String) (v : α)
    (h : k ≠ k') : dictGet (dictSet l k v) k' = dictGet l k' := by
  induction l with
  | nil => simp [dictSet, dictGet, h]
  | cons p rest ih =>
    by_cases hp : p.1 = k
    · simp [dictSet, hp, dictGet, h]
    · simp [dictSet, hp, dictGet, ih]

theorem dictGet_eq_none_forall {α : Type} (l : List (String × α)) (k : String)
    (h : dictGet l k = none) : ∀ p ∈ l, p.1 ≠ k := by
  induction l with
  | nil => simp
  | cons p rest ih =>
    intro q hq
    simp only [dictGet] at h
    by_cases hp : p.1 = k
    · simp [hp] at h
    · rcases List.mem_cons.mp hq with hq | hq
      · simpa [hq] using hp
      · exact ih (by simpa [hp] using h) q hq

theorem countKey_eq_zero_of_get_none {α : Type} (l : List (String × α)) (k : String)
    (h : dictGet l k = none) : countKey l k = 0 := by
  have hall := dictGet_eq_none_forall l k h
  simp only [countKey, List.count_eq_zero]
  intro hmem
  rcases List.mem_map.mp hmem with ⟨p, hp, hk⟩
  exact hall p hp hk

theorem dictSet_of_get_none {α : Type} (l : List (String × α)) (k : String) (v : α)
    (h : dictGet l k = none) : dictSet l k v = l ++ [(k, v)] := by
  induction l with
  | nil => simp [dictSet]
  | cons p rest ih =>
    simp only [dictGet] at h
    by_cases hp : p.1 = k
    · simp [hp] at h
    · simp [dictSet, hp, ih (by simpa [hp] using h)]

theorem countKey_dictSet_of_get_none {α : Type} (l : List (String × α)) (k : String) (v : α)
    (h : dictGet l k = none) : countKey (dictSet l k v) k = 1 := by
  have h0 : countKey l k = 0 := countKey_eq_zero_of_get_none l k h
  rw [dictSet_of_get_none l k v h]
  simp only [countKey, List.map_append, List.count_append] at h0 ⊢
  simp [h0]

theorem keys_dictSet_mem {α : Type} (l : List (String × α)) (k : String) (v : α) :
    k ∈ (dictSet l k v).map Prod.fst := by
  induction l with
  | nil => simp [dictSet]
  | cons p rest ih =>
    by_cases hp : p.1 = k
    · simp [dictSet, hp]
    · simp only [dictSet, hp, if_false, List.map_cons, List.mem_cons]
      exact Or.inr ih

theorem mem_dictSet {α : Type} (l : List (String × α)) (k : String) (v : α) :
    ∀ q ∈ dictSet l k v, q ∈ l ∨ q = (k, v) := by
  induction l with
  | nil => simp [dictSet]
  | cons p rest ih =>
    intro q hq
    by_cases hp : p.1 = k
    · simp only [dictSet, hp, if_true, List.mem_cons] at hq
      rcases hq with hq | hq
      · exact Or.inr hq
      · exact Or.inl (List.mem_cons_of_mem _ hq)
    · simp only [dictSet, hp, if_false, List.mem_cons] at hq
      rcases hq with hq | hq
      · exact Or.inl (by simp [hq])
      · rcases ih q hq with h | h
        · exact Or.inl (List.mem_cons_of_mem _ h)
        · exact Or.inr h

theorem keys_dictSet_nodup {α : Type} (l : List (String × α)) (k : String) (v : α)
    (h : (l.map Prod.fst).Nodup) : ((dictSet l k v).map Prod.fst).Nodup := by
  induction l with
  | nil => simp [dictSet]
  | cons p rest ih =>
    simp only [List.map_cons, List.nodup_cons] at h
    by_cases hp : p.1 = k
    · simp only [dictSet, hp, if_true, List.map_cons, List.nodup_cons]
      exact ⟨hp ▸ h.1, h.2⟩
    · simp only [dictSet, hp, if_false, List.map_cons, List.nodup_cons]
      refine ⟨?_, ih h.2⟩
      intro hmem
      rcases List.mem_map.mp hmem with ⟨q, hq, hfst⟩
      rcases mem_dictSet rest k v q hq with hql | hqe
      · exact h.1 (hfst ▸ List.mem_map_of_mem Prod.fst hql)
      · exact hp (by rw [hqe] at hfst; simpa using hfst.symm)

theorem dictGet_mem_keys {α : Type} (l : List (String × α)) (k : String) (v : α)
    (h : dictGet l k = some v) : k ∈ l.map Prod.fst := by
  induction l with
  | nil => simp [dictGet] at h
  | cons p rest ih =>
    simp only [dictGet] at h
    by_cases hp : p.1 = k
    · simp [hp]
    · simp only [List.map_cons, List.mem_cons]
      exact Or.inr (ih (by simpa [hp] using h))

theorem dictRemove_sublist {α : Type} (l : List (String × α)) (k : String) :
    (dictRemove l k).Sublist l := by
  induction l with
  | nil => simp [dictRemove]
  | cons p rest ih =>
    by_cases hp : p.1 = k
    · simp only [dictRemove, hp, if_true]
      exact List.sublist_cons_self p rest
    · simp only [dictRemove, hp, if_false]
      exact List.Sublist.cons₂ p ih

theorem keys_dictRemove_nodup {α : Type} (l : List (String × α)) (k : String)
    (h : (l.map Prod.fst).Nodup) : ((dictRemove l k).map Prod.fst).Nodup :=
  ((dictRemove_sublist l k).map Prod.fst).nodup h

theorem dictGet_dictRemove_same {α : Type} (l : List (String × α)) (k : String)
    (h : (l.map Prod.fst).Nodup) : dictGet (dictRemove l k) k = none := by
  induction l with
  | nil => simp [dictRemove, dictGet]
  | cons p rest ih =>
    simp only [List.map_cons, List.nodup_cons] at h
    by_cases hp : p.1 = k
    · simp only [dictRemove, hp, if_true]
      cases hg : dictGet rest k with
      | none => rfl
      | some v =>
        exfalso
        exact h.1 (hp ▸ dictGet_mem_keys rest k v hg)
    · simp [dictRemove, hp, dictGet, ih h.2]

theorem dictRemove_of_get_none {α : Type} (l : List (String × α)) (k : String)
    (h : dictGet l k = none) : dictRemove l k = l := by
  induction l with
  | nil => simp [dictRemove]
  | cons p rest ih =>
    simp only [dictGet] at h
    by_cases hp : p.1 = k
    · simp [hp] at h
    · simp [dictRemove, hp, ih (by simpa [hp] using h)]

/-! ## String helpers (Python `str` operations, ASCII) -/

/-- `listStarts p s`: the character list `p` is a leading run of `s`
(Python `s.startswith(p)` on the underlying characters). -/
def listStarts : List Char → List Char → Bool
  | [], _ => true
  | _ :: _, [] => false
  | a :: ps, b :: ss => a == b && listStarts ps ss

/-- `listContains pat s`: `pat` occurs as a contiguous run inside `s`
(Python `pat in s`). -/
def listContains (pat : List Char) : List Char → Bool
  | [] => pat.isEmpty
  | c :: rest => listStarts pat (c :: rest) || listContains pat rest

/-- Structural worker for `removeAll`; the fuel bounds the number of
steps (one unit per character position visited), so `s.length` always
suffices. -/
def removeAllGo (pat : List Char) : Nat → List Char → List Char
  | _, [] => []
  | 0, s => s
  | fuel + 1, c :: rest =>
    if pat ≠ [] ∧ listStarts pat (c :: rest) = true then
      removeAllGo pat fuel ((c :: rest).drop pat.length)
    else
      c :: removeAllGo pat fuel rest

/-- Python `s.replace(pat, "")` for a non-empty `pat`: remove every
occurrence of `pat`, scanning left to right, non-overlapping.  An empty
`pat` with an empty replacement leaves the string unchanged in Python,
which the `pat = []` branch reproduces. -/
def removeAll (pat s : List Char) : List Char := removeAllGo pat s.length s

theorem removeAllGo_fuel_irrelevant (pat : List Char) :
    ∀ (f1 f2 : Nat) (s : List Char), s.length ≤ f1 → s.length ≤ f2 →
      removeAllGo pat f1 s = removeAllGo pat f2 s := by
  intro f1
  induction f1 with
  | zero =>
    intro f2 s hs1 _
    have : s = [] := List.length_eq_zero.mp (Nat.le_zero.mp hs1)
    subst this
    cases f2 <;> rfl
  | succ f1 ih =>
    intro f2 s hs1 hs2
    cases s with
    | nil => cases f2 <;> rfl
    | cons c rest =>
      cases f2 with
      | zero => simp at hs2
      | succ f2 =>
        simp only [removeAllGo]
        by_cases hcond : pat ≠ [] ∧ listStarts pat (c :: rest) = true
        · rw [if_pos hcond, if_pos hcond]
          have hp : 0 < pat.length := List.length_pos.mpr hcond.1
          apply ih
          · simp only [List.length_drop, List.length_cons]
            simp only [List.length_cons] at hs1
            omega
          · simp only [List.length_drop, List.length_cons]
            simp only [List.length_cons] at hs2
            omega
        · rw [if_neg hcond, if_neg hcond]
          simp only [List.length_cons] at hs1 hs2
          rw [ih f2 rest (by omega) (by omega)]

theorem removeAllGo_cons_pos (pat : List Char) (fuel : Nat) (c : Char) (rest : List Char)
    (h : pat ≠ [] ∧ listStarts pat (c :: rest) = true) :
    removeAllGo pat (fuel + 1) (c :: rest) =
      removeAllGo pat fuel ((c :: rest).drop pat.length) := by
  simp only [removeAllGo]
  rw [if_pos h]

theorem listStarts_self_append (p t : List Char) : listStarts p (p ++ t) = true := by
  induction p with
  | nil => simp [listStarts]
  | cons a ps ih => simp [listStarts, ih]

theorem listStarts_refl (p : List Char) : listStarts p p = true := by
  have h := listStarts_self_append p []
  rwa [List.append_nil] at h

theorem listContains_append_right (pat pre : List Char) (h : listContains pat pat = true) :
    listContains pat (pre ++ pat) = true := by
  induction pre with
  | nil => simpa using h
  | cons c rest ih =>
    simp only [List.cons_append, listContains, Bool.or_eq_true]
    exact Or.inr ih

theorem listContains_self (pat : List Char) : listContains pat pat = true := by
  cases pat with
  | nil => simp [listContains, List.isEmpty]
  | cons c rest => simp [listContains, listStarts_refl]

theorem drop_length_append (p t : List Char) : (p ++ t).drop p.length = t := by
  simp

theorem removeAll_append_self (pat t : List Char) (hp : pat ≠ []) :
    removeAll pat (pat ++ t) = removeAll pat t := by
  cases pat with
  | nil => exact absurd rfl hp
  | cons a ps =>
    show removeAllGo (a :: ps) ((a :: ps) ++ t).length ((a :: ps) ++ t) =
      removeAllGo (a :: ps) t.length t
    have hlen : ((a :: ps) ++ t).length = (ps.length + t.length) + 1 := by
      simp only [List.length_append, List.length_cons]
      omega
    rw [hlen, List.cons_append, removeAllGo_cons_pos (a :: ps) (ps.length + t.length) a
      (ps ++ t) ⟨hp, by rw [← List.cons_append]; exact listStarts_self_append (a :: ps) t⟩]
    have hdrop : (a :: (ps ++ t)).drop (a :: ps).length = t := by
      rw [← List.cons_append]
      exact drop_length_append (a :: ps) t
    rw [hdrop]
    exact removeAllGo_fuel_irrelevant (a :: ps) (ps.length + t.length) t.length t
      (by omega) (le_refl _)

theorem removeAll_of_not_contains (pat s : List Char) (h : listContains pat s = false) :
    removeAll pat s = s := by
  induction s with
  | nil => rfl
  | cons c rest ih =>
    simp only [listContains, Bool.or_eq_false_iff] at h
    unfold removeAll
    simp only [List.length_cons, removeAllGo]
    rw [if_neg (by simp [h.1])]
    exact congrArg (c :: ·) (ih h.2)

/-- ASCII lower-casing of one character (Python `str.lower` restricted to
ASCII, which is all the source's keyword sets use). -/
def asciiLower (c : Char) : Char :=
  if 'A' ≤ c ∧ c ≤ 'Z' then Char.ofNat (c.toNat + 32) else c

/-- Python `str.lower()` (ASCII). -/
def pyLower (s : String) : String := ⟨s.data.map asciiLower⟩

/-- Characters removed by Python `str.strip()`. -/
def isPySpace (c : Char) : Bool := c == ' ' || c == '\t' || c == '\n' || c == '\r'

/-- Python `str.strip()`. -/
def pyStrip (s : String) : String :=
  ⟨((s.data.dropWhile isPySpace).reverse.dropWhile isPySpace).reverse⟩

/-- Python `s.startswith(p)`. -/
def strStarts (s p : String) : Bool := listStarts p.data s.data

/-- Python `s.replace(pat, "")`. -/
def pyReplaceEmpty (s pat : String) : String := ⟨removeAll pat.data s.data⟩

/-! ## Connection Registry (`app/api/websocket.py`, `ConnectionManager`)

`active_connections : {user_id: {device_id: WebSocket}}`; the opaque
WebSocket transport handles are modelled as natural numbers. -/

structure ConnectionManager where
  active_connections : List (String × List (String × Nat))
deriving Repr, DecidableEq

/-- The empty registry (`ConnectionManager.__init__`). -/
def ConnectionManager.empty : ConnectionManager := ⟨[]⟩

/-- `ConnectionManager.connect` (the registration part; the transport
`accept` handshake is external): create the per-user bucket if missing,
then install/replace the handle under `(user_id, device_id)`. -/
def ConnectionManager.connect (m : ConnectionManager) (user_id device_id : String)
    (handle : Nat) : ConnectionManager :=
  let buckets :=
    match dictGet m.active_connections user_id with
    | none => dictSet m.active_connections user_id []
    | some _ => m.active_connections
  let bucket := (dictGet buckets user_id).getD []
  ⟨dictSet buckets user_id (dictSet bucket device_id handle)⟩

/-- `ConnectionManager.disconnect`: drop the key if present, and drop the
now-empty per-user bucket if that was the user's last device. -/
def ConnectionManager.disconnect (m : ConnectionManager) (user_id device_id : String) :
    ConnectionManager :=
  match dictGet m.active_connections user_id with
  | none => m
  | some bucket =>
    let bucket' := if (dictGet bucket device_id).isSome then dictRemove bucket device_id
                   else bucket
    if bucket' = [] then ⟨dictRemove m.active_connections user_id⟩
    else ⟨dictSet m.active_connections user_id bucket'⟩

/-- `ConnectionManager.get_connection_count`.  Note the Python guard is
`if user_id:`, so the empty string (falsy) falls through to the total
count. -/
def ConnectionManager.get_connection_count (m : ConnectionManager) :
    Option String → Nat
  | some u =>
    if u = "" then (m.active_connections.map (fun p => p.2.length)).sum
    else ((dictGet m.active_connections u).getD []).length
  | none => (m.active_connections.map (fun p => p.2.length)).sum

/-- All handles stored under the key `(user_id, device_id)` (spec-side
observation used to state the at-most-one-connection-per-key invariant). -/
def ConnectionManager.entriesFor (m : ConnectionManager) (user_id device_id : String) :
    List Nat :=
  ((m.active_connections.filter (fun p => p.1 = user_id)).map
    (fun p => (p.2.filter (fun q => q.1 = device_id)).map Prod.snd)).flatten

/-- Registry states reachable through the public operations. -/
inductive CMReach : ConnectionManager → Prop
  | empty : CMReach ConnectionManager.empty
  | connect (m : ConnectionManager) (u d : String) (h : Nat) :
      CMReach m → CMReach (m.connect u d h)
  | disconnect (m : ConnectionManager) (u d : String) :
      CMReach m → CMReach (m.disconnect u d)

/-- Well-formedness: user keys are distinct and each per-user bucket has
distinct device keys (Python dict keys are unique). -/
def CMWF (m : ConnectionManager) : Prop :=
  (m.active_connections.map Prod.fst).Nodup ∧
    ∀ p ∈ m.active_connections, (p.2.map Prod.fst).Nodup

instance (m : ConnectionManager) : Decidable (CMWF m) := by
  unfold CMWF
  exact instDecidableAnd

/-! ### Live-iteration semantics of `broadcast_to_user`

`broadcast_to_user` iterates `self.active_connections[user_id].items()`
with an `await websocket.send_json(...)` inside the loop body.  `items()`
is a live view of the dict, and each send is a suspension point at which
another task may mutate the registry for the same user.  CPython raises
`RuntimeError` from the iterator's `next` as soon as the dict's size has
changed; replacing the value of an existing key does not change the size
and is observed by the ongoing iteration.  The model below makes these
cooperative interleavings explicit: the schedule supplies at most one
registry mutation per send, applied during that send's `await`. -/

/-- A registry mutation another task may perform during one send's
`await`: nothing, `connect` for a device of the same user (inserting or
replacing), or `disconnect` for a device of the same user. -/
inductive EnvAct
  | idle : EnvAct
  | register (device_id : String) (handle : Nat) : EnvAct
  | unregister (device_id : String) : EnvAct
deriving Repr, DecidableEq

/-- Apply an environment action to the user's device bucket. -/
def applyEnv (bucket : List (String × Nat)) : EnvAct → List (String × Nat)
  | .idle => bucket
  | .register d h => dictSet bucket d h
  | .unregister d => if (dictGet bucket d).isSome then dictRemove bucket d else bucket

/-- One step of the `for device_id, websocket in bucket.items():` loop.
`keys` is the iterator's remaining key sequence (fixed at loop entry),
`bucket` the current live bucket, `size0` the size recorded when the
iterator was created.  Returns the sends performed (device, handle) and
whether the iteration was aborted by `RuntimeError`. -/
def broadcastLiveAux (excl : Option String) :
    List String → List (String × Nat) → Nat → List EnvAct →
      List (String × Nat) × Bool
  | [], bucket, size0, _ => ([], bucket.length ≠ size0)
  | k :: ks, bucket, size0, sched =>
    if bucket.length ≠ size0 then ([], true)
    else
      match dictGet bucket k with
      | none => broadcastLiveAux excl ks bucket size0 sched
      | some h =>
        if some k = excl then broadcastLiveAux excl ks bucket size0 sched
        else
          let act := sched.headD .idle
          let out := broadcastLiveAux excl ks (applyEnv bucket act) size0 sched.tail
          ((k, h) :: out.1, out.2)

/-- `ConnectionManager.broadcast_to_user` under a schedule of concurrent
registry mutations (one fired during each send's `await`).  Returns the
(device, handle) pairs actually sent to, and whether the loop raised. -/
def broadcastLiveOn (m : ConnectionManager) (user_id : String)
    (excl : Option String) (sched : List EnvAct) : List (String × Nat) × Bool :=
  match dictGet m.active_connections user_id with
  | none => ([], false)
  | some bucket => broadcastLiveAux excl (bucket.map Prod.fst) bucket bucket.length sched

/-- `ConnectionManager.broadcast_to_user` when no other task touches the
user's bucket during the sends (the empty schedule). -/
def ConnectionManager.broadcast_to_user (m : ConnectionManager) (user_id : String)
    (excl : Option String) : List (String × Nat) :=
  (broadcastLiveOn m user_id excl []).1

theorem broadcastLiveAux_nil_sched (excl : Option String) (keys : List String)
    (bucket : List (String × Nat)) :
    broadcastLiveAux excl keys bucket bucket.length [] =
      (keys.filterMap (fun k =>
        match dictGet bucket k with
        | none => none
        | some h => if some k = excl then none else some (k, h)), false) := by
  induction keys with
  | nil => simp [broadcastLiveAux]
  | cons k ks ih =>
    simp only [broadcastLiveAux, ne_eq, not_true_eq_false, if_false, List.filterMap_cons]
    cases hg : dictGet bucket k with
    | none => simpa [hg] using ih
    | some h =>
      by_cases he : some k = excl
      · simpa [hg, he] using ih
      · simp only [hg, he, if_false, ite_false]
        have : applyEnv bucket (List.headD [] EnvAct.idle) = bucket := rfl
        simpa [applyEnv, List.headD, List.tail, this] using congrArg
          (fun r => ((k, h) :: r.1, r.2)) ih

/-- With distinct device keys, walking the key sequence of a constant
bucket and looking each key up returns exactly the bucket's entries. -/
theorem filterMap_keys_of_nodup (excl : Option String) (bucket : List (String × Nat))
    (hn : (bucket.map Prod.fst).Nodup) :
    ((bucket.map Prod.fst).filterMap (fun k =>
        match dictGet bucket k with
        | none => none
        | some h => if some k = excl then none else some (k, h))) =
      bucket.filter (fun p => decide (some p.1 ≠ excl)) := by
  induction bucket with
  | nil => simp
  | cons p rest ih =>
    simp only [List.map_cons, List.nodup_cons] at hn
    simp only [List.map_cons, List.filterMap_cons, List.filter_cons]
    have hget : dictGet (p :: rest) p.1 = some p.2 := by
      cases p; simp [dictGet]
    have hrest : ∀ k ∈ rest.map Prod.fst,
        dictGet (p :: rest) k = dictGet rest k := by
      intro k hk
      have : p.1 ≠ k := fun h => hn.1 (h ▸ hk)
      simp [dictGet, this]
    have hfm : (rest.map Prod.fst).filterMap (fun k =>
        match dictGet (p :: rest) k with
        | none => none
        | some h => if some k = excl then none else some (k, h)) =
        (rest.map Prod.fst).filterMap (fun k =>
        match dictGet rest k with
        | none => none
        | some h => if some k = excl then none else some (k, h)) := by
      apply List.filterMap_congr
      intro k hk
      rw [hrest k hk]
    by_cases he : some p.1 = excl
    · simp only [hget, he, if_true, ite_true]
      rw [hfm, ih hn.2]
      simp [he]
    · simp only [hget, he, if_false, ite_false]
      rw [hfm, ih hn.2]
      simp [he]

/-! ## Dialogue Session Multiplexer (`app/services/gemini_service.py`) -/

/-- A chat session handle: `sid` is the identity of the opaque
`model.start_chat(...)` object, `history` the turn history the external
engine accumulates inside it. -/
structure ChatSession where
  sid : Nat
  history : List (String × String)
deriving Repr, DecidableEq

/-- `GeminiService`: `_chat_sessions` maps `"user_id:conversation_id"`
keys to live chat sessions; `nextSid` allocates fresh session
identities. -/
structure GeminiService where
  _chat_sessions : List (String × ChatSession)
  nextSid : Nat
deriving Repr, DecidableEq

/-- A freshly constructed service (`GeminiService.__init__`). -/
def GeminiService.init : GeminiService := ⟨[], 0⟩

/-- `f"{user_id}:{conversation_id or 'default'}"`.  Python `or` treats
the empty string as falsy, so `""` also maps to `"default"`. -/
def sessionKey (user_id : String) (conversation_id : Option String) : String :=
  user_id ++ ":" ++
    (match conversation_id with
     | none => "default"
     | some c => if c = "" then "default" else c)

/-- `GeminiService._get_or_create_chat`: return the existing session for
the key, or create one with empty history (`start_chat(history=[])`). -/
def GeminiService._get_or_create_chat (g : GeminiService) (user_id : String)
    (conversation_id : Option String) : ChatSession × GeminiService :=
  let key := sessionKey user_id conversation_id
  match dictGet g._chat_sessions key with
  | some chat => (chat, g)
  | none =>
    let chat : ChatSession := ⟨g.nextSid, []⟩
    (chat, ⟨dictSet g._chat_sessions key chat, g.nextSid + 1⟩)

/-- The fixed fallback returned by `send_message` when the engine call
raises. -/
def sendFallback : String :=
  "I\x27m sorry, I encountered an issue processing your request. Please try again."

/-- `GeminiService.send_message`.  The external engine call
`chat.send_message_async(message)` is a collaborator; its outcome is
passed in as `engine` (`.ok response_text` or `.error raw_error_text`).
On success the session's history grows by the exchanged turns; on any
exception the error is logged and the fixed fallback text is returned,
and `_chat_sessions` is left untouched. -/
def GeminiService.send_message (g : GeminiService) (message : String)
    (user_id : String) (conversation_id : Option String)
    (engine : Except String String) : String × GeminiService :=
  let key := sessionKey user_id conversation_id
  let res := g._get_or_create_chat user_id conversation_id
  let chat := res.1
  let g1 := res.2
  match engine with
  | .ok text =>
    let chat' : ChatSession :=
      ⟨chat.sid, chat.history ++ [("user", message), ("model", text)]⟩
    (text, ⟨dictSet g1._chat_sessions key chat', g1.nextSid⟩)
  | .error _ => (sendFallback, g1)

/-- The fixed fallback chunk yielded by `send_message_stream` when the
engine raises mid-stream. -/
def streamFallback : String :=
  "I\x27m sorry, I encountered an issue. Please try again."

/-- `GeminiService.send_message_stream`, observed as the finite chunk
sequence it yields.  The upstream outcome is the prefix of chunk texts
the engine produced (`upstream`) and whether it then raised instead of
completing (`failed`).  Empty upstream chunks are skipped
(`if chunk.text:`); on an exception the generator yields the single
fallback chunk and returns. -/
def geminiStreamChunks (upstream : List String) (failed : Bool) : List String :=
  upstream.filter (fun c => c ≠ "") ++ (if failed then [streamFallback] else [])

/-- One server-sent-events chunk of `chat.py`'s `generate()`:
`{"text": ..., "done": ...}`. -/
structure SSEChunk where
  text : String
  done : Bool
deriving Repr, DecidableEq

/-- `send_message_stream.generate` in `app/api/chat.py`: forward every
Gemini chunk with `done: false`, then signal completion with the distinct
terminal `{"text": "", "done": true}`. -/
def generateSSE (gchunks : List String) : List SSEChunk :=
  gchunks.map (fun c => ⟨c, false⟩) ++ [⟨"", true⟩]

/-- `GeminiService.clear_conversation`: drop the session for the key if
present. -/
def GeminiService.clear_conversation (g : GeminiService) (user_id : String)
    (conversation_id : Option String) : GeminiService :=
  let key := sessionKey user_id conversation_id
  if (dictGet g._chat_sessions key).isSome then
    ⟨dictRemove g._chat_sessions key, g.nextSid⟩
  else g

/-- `GeminiService.get_active_conversations`: conversation ids of the
user's live sessions, recovered from the `"user:conversation"` keys with
`key.replace(prefix, "")` — Python `replace` removes every occurrence of
the prefix, not only the leading one. -/
def GeminiService.get_active_conversations (g : GeminiService) (user_id : String) :
    List String :=
  let pre := user_id ++ ":"
  ((g._chat_sessions.map Prod.fst).filter (fun k => strStarts k pre)).map
    (fun k => pyReplaceEmpty k pre)

/-- Multiplexer states reachable through the public operations (any
message, key and engine outcome). -/
inductive GReach : GeminiService → Prop
  | init : GReach GeminiService.init
  | send (g : GeminiService) (msg u : String) (c : Option String)
      (engine : Except String String) :
      GReach g → GReach (g.send_message msg u c engine).2
  | clear (g : GeminiService) (u : String) (c : Option String) :
      GReach g → GReach (g.clear_conversation u c)

/-- Well-formedness: session keys are distinct (Python dict), and every
stored session identity was allocated below `nextSid`. -/
def GWF (g : GeminiService) : Prop :=
  (g._chat_sessions.map Prod.fst).Nodup ∧
    ∀ p ∈ g._chat_sessions, p.2.sid < g.nextSid

instance (g : GeminiService) : Decidable (GWF g) := by
  unfold GWF
  exact instDecidableAnd

theorem dictGet_mem {α : Type} (l : List (String × α)) (k : String) (v : α)
    (h : dictGet l k = some v) : (k, v) ∈ l := by
  induction l with
  | nil => simp [dictGet] at h
  | cons p rest ih =>
    simp only [dictGet] at h
    by_cases hp : p.1 = k
    · simp only [hp, if_true, Option.some.injEq] at h
      cases p with
      | mk a b =>
        simp only at hp h
        simp [hp, h]
    · exact List.mem_cons_of_mem _ (ih (by simpa [hp] using h))

theorem get_or_create_eq_some (g : GeminiService) (u : String) (c : Option String)
    (chat : ChatSession)
    (hg : dictGet g._chat_sessions (sessionKey u c) = some chat) :
    g._get_or_create_chat u c = (chat, g) := by
  simp only [GeminiService._get_or_create_chat, hg]

theorem get_or_create_eq_none (g : GeminiService) (u : String) (c : Option String)
    (hg : dictGet g._chat_sessions (sessionKey u c) = none) :
    g._get_or_create_chat u c =
      (⟨g.nextSid, []⟩,
        ⟨dictSet g._chat_sessions (sessionKey u c) ⟨g.nextSid, []⟩, g.nextSid + 1⟩) := by
  simp only [GeminiService._get_or_create_chat, hg]

theorem gwf_get_or_create (g : GeminiService) (u : String) (c : Option String)
    (h : GWF g) :
    GWF (g._get_or_create_chat u c).2 ∧
      dictGet (g._get_or_create_chat u c).2._chat_sessions (sessionKey u c) =
        some (g._get_or_create_chat u c).1 ∧
      (g._get_or_create_chat u c).1.sid < (g._get_or_create_chat u c).2.nextSid ∧
      g.nextSid ≤ (g._get_or_create_chat u c).2.nextSid := by
  cases hg : dictGet g._chat_sessions (sessionKey u c) with
  | some chat =>
    rw [get_or_create_eq_some g u c chat hg]
    exact ⟨h, hg, h.2 _ (dictGet_mem _ _ _ hg), le_refl _⟩
  | none =>
    rw [get_or_create_eq_none g u c hg]
    refine ⟨⟨keys_dictSet_nodup _ _ _ h.1, ?_⟩,
      dictGet_dictSet_same _ _ _, Nat.lt_succ_self _, Nat.le_succ _⟩
    intro p hp
    rcases mem_dictSet _ _ _ p hp with hmem | heq
    · exact Nat.lt_succ_of_lt (h.2 p hmem)
    · rw [heq]; exact Nat.lt_succ_self _

theorem send_message_eq_ok (g : GeminiService) (msg u : String) (c : Option String)
    (text : String) :
    g.send_message msg u c (.ok text) =
      (text,
        ⟨dictSet (g._get_or_create_chat u c).2._chat_sessions (sessionKey u c)
          ⟨(g._get_or_create_chat u c).1.sid,
            (g._get_or_create_chat u c).1.history ++ [("user", msg), ("model", text)]⟩,
          (g._get_or_create_chat u c).2.nextSid⟩) := by
  simp only [GeminiService.send_message]

theorem send_message_eq_error (g : GeminiService) (msg u : String) (c : Option String)
    (e : String) :
    g.send_message msg u c (.error e) = (sendFallback, (g._get_or_create_chat u c).2) := by
  simp only [GeminiService.send_message]

theorem gwf_send (g : GeminiService) (msg u : String) (c : Option String)
    (engine : Except String String) (h : GWF g) :
    GWF (g.send_message msg u c engine).2 := by
  have hgoc := gwf_get_or_create g u c h
  cases engine with
  | error e => rw [send_message_eq_error]; exact hgoc.1
  | ok text =>
    rw [send_message_eq_ok]
    refine ⟨keys_dictSet_nodup _ _ _ hgoc.1.1, ?_⟩
    intro p hp
    rcases mem_dictSet _ _ _ p hp with hmem | heq
    · exact hgoc.1.2 p hmem
    · rw [heq]
      exact hgoc.2.2.1

theorem gwf_clear (g : GeminiService) (u : String) (c : Option String) (h : GWF g) :
    GWF (g.clear_conversation u c) := by
  unfold GeminiService.clear_conversation
  by_cases hk : (dictGet g._chat_sessions (sessionKey u c)).isSome
  · simp only [hk, if_true]
    refine ⟨keys_dictRemove_nodup _ _ h.1, ?_⟩
    intro p hp
    exact h.2 p ((dictRemove_sublist _ _).mem hp)
  · simp only [hk, if_false]
    exact h

theorem greach_gwf (g : GeminiService) (h : GReach g) : GWF g := by
  induction h with
  | init => exact ⟨List.nodup_nil, by simp [GeminiService.init]⟩
  | send g msg u c engine _ ih => exact gwf_send g msg u c engine ih
  | clear g u c _ ih => exact gwf_clear g u c ih

theorem clear_eq_present (g : GeminiService) (u : String) (c : Option String)
    (h : (dictGet g._chat_sessions (sessionKey u c)).isSome) :
    g.clear_conversation u c =
      ⟨dictRemove g._chat_sessions (sessionKey u c), g.nextSid⟩ := by
  simp only [GeminiService.clear_conversation, h, if_true]

theorem clear_eq_absent (g : GeminiService) (u : String) (c : Option String)
    (h : dictGet g._chat_sessions (sessionKey u c) = none) :
    g.clear_conversation u c = g := by
  simp only [GeminiService.clear_conversation, h, Option.isSome_none, Bool.false_eq_true,
    if_false]

/-! ## Long-term memory creation (`app/api/memory.py`)

The route handler `create_memory` is in the source; the store-facing
`memory_service.save_memory` it calls lives in
`app/services/memory_service.py`, which is not in the source tree. -/

/-- The enumerated `MemoryRecord` categories. -/
def allowedCategories : List String := ["preference", "interest", "event", "goal", "fact"]

/-- The request body of `POST /memory/` (`MemoryCreate`): `category` and
`content` are plain strings, `importance` is declared
`Field(default=5, ge=1, le=10)`. -/
structure MemoryCreateInput where
  category : String
  content : String
  importance : Int
deriving Repr, DecidableEq

/-- A persisted long-term `MemoryRecord` (the store-assigned id and the
timestamps are supplied by the external store and omitted). -/
structure MemoryRecord where
  category : String
  content : String
  importance : Int
deriving Repr, DecidableEq

/-- Outcome of a create attempt: a 4xx validation rejection, or the
created record. -/
inductive CreateOutcome
  | validationError (detail : String) : CreateOutcome
  | created (rec : MemoryRecord) : CreateOutcome
deriving Repr, DecidableEq

def CreateOutcome.isValidationError : CreateOutcome → Bool
  | .validationError _ => true
  | .created _ => false

/-- FastAPI/pydantic field validation of `MemoryCreate`: `importance`
must satisfy `ge=1, le=10`; a violating body is rejected with a 422
before the handler runs. -/
def pydanticValidMemory (m : MemoryCreateInput) : Bool :=
  1 ≤ m.importance && m.importance ≤ 10

/-- Modelled from the spec: `memory_service.save_memory`
(`app/services/memory_service.py`) is not in the source tree; only its
caller `create_memory` is.  Per the spec, `category` is restricted to the
enumerated set and an unknown category is rejected with a validation
error before any store write; a valid record is appended to the user's
long-term store. -/
def save_memory (m : MemoryCreateInput) (store : List MemoryRecord) :
    CreateOutcome × List MemoryRecord :=
  if m.category ∈ allowedCategories then
    let r : MemoryRecord := ⟨m.category, m.content, m.importance⟩
    (.created r, store ++ [r])
  else
    (.validationError "Invalid category", store)

/-- `POST /memory/` end to end: pydantic bounds first (before the handler
body), then the handler's `if not memory.content or
len(memory.content.strip()) == 0` guard (HTTP 400, before the service
call), then `memory_service.save_memory`. -/
def create_memory (m : MemoryCreateInput) (store : List MemoryRecord) :
    CreateOutcome × List MemoryRecord :=
  if ¬ pydanticValidMemory m then
    (.validationError "422 importance out of range", store)
  else if pyStrip m.content = "" then
    (.validationError "Memory content is required", store)
  else
    save_memory m store

/-! ## Intent classifier

Modelled from the spec: `ConversationService.analyze_intent`
(`app/services/conversation_service.py`) is not in the source tree; only
its tests (`tests/test_conversation_service.py`) and callers are.  Per
spec section 4.1: normalize (trim, case-fold), then evaluate the
acknowledgment, command and interruption keyword rule sets in that fixed
priority order, defaulting to `conversation`; keyword sets and the texts
they must accept are fixed by the tests. -/

/-- The ephemeral classification result (`IntentAnalysis`). -/
structure IntentResult where
  type : String
  is_acknowledgment : Bool
  is_command : Bool
  is_interruption : Bool
  confidence : ℚ
deriving Repr, DecidableEq

def ackKeywords : List String := ["okay", "ok", "yes", "no", "got it", "sure", "yeah"]

def commandVerbs : List String := ["set", "create", "add", "delete", "show", "list"]

def interruptionKeywords : List String :=
  ["stop", "wait", "hold on", "pause", "cancel", "never mind"]

/-- Normalization: trim then case-fold. -/
def normalizeText (s : String) : String := pyLower (pyStrip s)

/-- Acknowledgment rule set: a bare keyword, or a close variant led by
one (keyword followed by more words). -/
def matchesAcknowledgment (t : String) : Bool :=
  ackKeywords.any (fun kw => t == kw || strStarts t (kw ++ " "))

/-- Command rule set: an imperative verb as the leading token, followed
by an object. -/
def matchesCommand (t : String) : Bool :=
  commandVerbs.any (fun v => strStarts t (v ++ " ") && t != v ++ " ")

/-- Interruption rule set: a bare keyword or a close variant led by
one. -/
def matchesInterruption (t : String) : Bool :=
  interruptionKeywords.any (fun kw => t == kw || strStarts t (kw ++ " "))

/-- `analyze_intent`: the three rule sets in fixed priority order, then
the `conversation` default. -/
def analyze_intent (text : String) : IntentResult :=
  let t := normalizeText text
  if matchesAcknowledgment t then ⟨"acknowledgment", true, false, false, 9 / 10⟩
  else if matchesCommand t then ⟨"command", false, true, false, 9 / 10⟩
  else if matchesInterruption t then ⟨"interruption", false, false, true, 9 / 10⟩
  else ⟨"conversation", false, false, false, 3 / 10⟩

/-! ## Real-time error messages (`app/api/websocket.py`,
`app/services/tts_service.py`)

Each error path builds the `{"type": "error", "error": ...}` payload sent
to the client; `e` stands for `str(e)` of the caught exception. -/

/-- The outbound error frame, reduced to its type tag and error text. -/
structure ErrorFrame where
  type : String
  error : String
deriving Repr, DecidableEq

/-- `websocket_speech`'s top-level `except Exception as e` handler:
`{"type": "error", "error": str(e)}`. -/
def wsLoopErrorFrame (e : String) : ErrorFrame := ⟨"error", e⟩

/-- `handle_audio_message`'s `except` handler:
`{"type": "error", "error": f"Transcription failed: {str(e)}"}`. -/
def wsTranscriptionFailedFrame (e : String) : ErrorFrame :=
  ⟨"error", "Transcription failed: " ++ e⟩

/-- `handle_synthesize_message`'s `except` handler:
`{"type": "error", "error": f"Synthesis failed: {str(e)}"}`. -/
def wsSynthesisFailedFrame (e : String) : ErrorFrame :=
  ⟨"error", "Synthesis failed: " ++ e⟩

/-- `GoogleTTSEngine.synthesize`'s `except` branch returns the result
dict with `"error": str(e)`; `handle_synthesize_message` forwards that
field verbatim as `{"type": "error", "error": result["error"]}`. -/
def wsSynthesisUpstreamFrame (e : String) : ErrorFrame := ⟨"error", e⟩

/-! ## Claims -/

/-- Claim C1: every attempt to create a long-term memory through
`POST /memory/` persists a record only if its importance lies in `[1,10]`,
its content is non-empty after trimming, and its category is one of the
five enumerated ones; an input violating any bound — in particular an
unknown category — is rejected with a validation error and the store is
not written. -/
theorem create_memory_validation :
    ∀ (m : MemoryCreateInput) (store : List MemoryRecord),
      (∀ r store', create_memory m store = (.created r, store') →
        1 ≤ r.importance ∧ r.importance ≤ 10 ∧ pyStrip r.content ≠ "" ∧
          r.category ∈ allowedCategories ∧ store' = store ++ [r]) ∧
      (m.category ∉ allowedCategories →
        ((create_memory m store).1.isValidationError = true ∧
          (create_memory m store).2 = store)) := by
  intro m store
  constructor
  · intro r store' h
    by_cases hv : pydanticValidMemory m
    · by_cases hs : pyStrip m.content = ""
      · simp [create_memory, hv, hs] at h
      · by_cases hc : m.category ∈ allowedCategories
        · simp only [create_memory, hv, not_true_eq_false, if_false, hs, if_false,
            save_memory, hc, if_true, Prod.mk.injEq, CreateOutcome.created.injEq] at h
          have hr : r = ⟨m.category, m.content, m.importance⟩ := h.1.symm
          have hb : (1 ≤ m.importance && m.importance ≤ 10) = true := hv
          simp only [Bool.and_eq_true, decide_eq_true_eq] at hb
          subst hr
          exact ⟨hb.1, hb.2, hs, hc, h.2.symm⟩
        · simp [create_memory, hv, hs, save_memory, hc] at h
    · simp [create_memory, hv] at h
  · intro hc
    by_cases hv : pydanticValidMemory m
    · by_cases hs : pyStrip m.content = ""
      · simp [create_memory, hv, hs, CreateOutcome.isValidationError]
      · simp [create_memory, hv, hs, save_memory, hc, CreateOutcome.isValidationError]
    · simp [create_memory, hv, CreateOutcome.isValidationError]

/-- Witness for C1: the unknown category `"unknown"` is rejected and the
store is untouched, while a valid input is persisted within bounds. -/
theorem create_memory_validation_witness :
    ((create_memory ⟨"unknown", "hello", 5⟩ []).1.isValidationError = true ∧
      (create_memory ⟨"unknown", "hello", 5⟩ []).2 = []) ∧
      (1 : Int) ≤ 7 ∧ (7 : Int) ≤ 10 ∧ pyStrip "learn Spanish" ≠ "" ∧
        "goal" ∈ allowedCategories ∧
        ([] : List MemoryRecord) ++ [⟨"goal", "learn Spanish", 7⟩] =
          [⟨"goal", "learn Spanish", 7⟩] :=
  ⟨(create_memory_validation ⟨"unknown", "hello", 5⟩ []).2 (by decide),
    by
      have h := (create_memory_validation ⟨"goal", "learn Spanish", 7⟩ []).1
        ⟨"goal", "learn Spanish", 7⟩ [⟨"goal", "learn Spanish", 7⟩] (by decide)
      exact ⟨h.1, h.2.1, h.2.2.1, h.2.2.2.1, h.2.2.2.2.symm⟩⟩

/-- Claim C2, counterexample: the real-time error paths forward the raw
exception text.  With `str(e) = "PermissionDenied: 403 request had
insufficient authentication scopes"`, the top-level loop handler sends it
verbatim, the audio handler embeds it after its prefix, and the synthesis
path forwards the upstream provider error body unchanged — refuting
"never contains internal error detail such as the raw exception text or
the upstream provider's error body". -/
theorem ws_error_detail_leak_cex :
    (wsLoopErrorFrame
        "PermissionDenied: 403 request had insufficient authentication scopes").error =
      "PermissionDenied: 403 request had insufficient authentication scopes" ∧
    listContains
        "PermissionDenied: 403 request had insufficient authentication scopes".data
        (wsTranscriptionFailedFrame
          "PermissionDenied: 403 request had insufficient authentication scopes").error.data
      = true ∧
    (wsSynthesisUpstreamFrame
        "PermissionDenied: 403 request had insufficient authentication scopes").error =
      "PermissionDenied: 403 request had insufficient authentication scopes" := by
  refine ⟨rfl, ?_, rfl⟩
  decide

/-- Claim C2 as amended: every error path on the real-time connection
sends an `error`-typed message, but its text includes the raw exception
text — bare for exceptions escaping the message loop, after a short
`"Transcription failed: "` / `"Synthesis failed: "` description in the
audio and synthesis handlers — and the synthesis path forwards the
upstream provider's error body verbatim. -/
theorem ws_error_frames_carry_exception_text :
    ∀ e : String,
      (wsLoopErrorFrame e).type = "error" ∧ (wsLoopErrorFrame e).error = e ∧
      (wsTranscriptionFailedFrame e).type = "error" ∧
        listContains e.data (wsTranscriptionFailedFrame e).error.data = true ∧
      (wsSynthesisFailedFrame e).type = "error" ∧
        listContains e.data (wsSynthesisFailedFrame e).error.data = true ∧
      (wsSynthesisUpstreamFrame e).type = "error" ∧
        (wsSynthesisUpstreamFrame e).error = e := by
  intro e
  refine ⟨rfl, rfl, rfl, ?_, rfl, ?_, rfl, rfl⟩
  · show listContains e.data ("Transcription failed: " ++ e).data = true
    have hd : ("Transcription failed: " ++ e).data =
        "Transcription failed: ".data ++ e.data := rfl
    rw [hd]
    exact listContains_append_right e.data _ (listContains_self e.data)
  · show listContains e.data ("Synthesis failed: " ++ e).data = true
    have hd : ("Synthesis failed: " ++ e).data =
        "Synthesis failed: ".data ++ e.data := rfl
    rw [hd]
    exact listContains_append_right e.data _ (listContains_self e.data)

/-- Claim C3, counterexample: the broadcast loop iterates the live device
map, not a call-time snapshot.  With devices `d2`, `d3` registered for
`u` and `d1` excluded, the undisturbed broadcast reaches both devices,
but if `d3` is unregistered during the send to `d2`, the dict iterator
raises (`RuntimeError`: size changed during iteration) and `d3` — a
device registered for `u` at call time — never receives the message, so
a device removed while the sends are in progress does change the
recipient set. -/
theorem broadcast_snapshot_cex :
    (broadcastLiveOn ((ConnectionManager.empty.connect "u" "d2" 2).connect "u" "d3" 3)
        "u" (some "d1") []).1 = [("d2", 2), ("d3", 3)] ∧
    (broadcastLiveOn ((ConnectionManager.empty.connect "u" "d2" 2).connect "u" "d3" 3)
        "u" (some "d1") [EnvAct.unregister "d3"]).1 = [("d2", 2)] ∧
    (broadcastLiveOn ((ConnectionManager.empty.connect "u" "d2" 2).connect "u" "d3" 3)
        "u" (some "d1") [EnvAct.unregister "d3"]).2 = true := by
  decide

/-- Claim C3 as amended: when no concurrent registry mutation occurs
during the sends, `broadcast_to_user(u, msg, exclude_device)` delivers to
exactly the devices registered for `u` other than the excluded one, in
particular to zero devices if `u` has no connections; the device set is
read from the live map rather than snapshotted, so mutations during the
sends can change the outcome (see the counterexample). -/
theorem broadcast_delivers_registered_except_excluded :
    ∀ (m : ConnectionManager) (u : String) (excl : Option String),
      CMWF m →
      m.broadcast_to_user u excl =
        ((dictGet m.active_connections u).getD []).filter
          (fun p => decide (some p.1 ≠ excl)) ∧
      (dictGet m.active_connections u = none → m.broadcast_to_user u excl = []) := by
  intro m u excl hwf
  unfold ConnectionManager.broadcast_to_user broadcastLiveOn
  cases hg : dictGet m.active_connections u with
  | none => simp
  | some bucket =>
    have hn : (bucket.map Prod.fst).Nodup := hwf.2 (u, bucket) (dictGet_mem _ _ _ hg)
    constructor
    · show (broadcastLiveAux excl (bucket.map Prod.fst) bucket bucket.length []).1 =
        ((some bucket).getD []).filter (fun p => decide (some p.1 ≠ excl))
      rw [broadcastLiveAux_nil_sched excl (bucket.map Prod.fst) bucket]
      simpa using filterMap_keys_of_nodup excl bucket hn
    · intro hnone
      exact absurd hnone (by simp)

/-- Witness for the amended C3: on a registry with devices `d2`, `d3`
for `u`, excluding `d1` delivers to both, and a user with no connections
gets zero deliveries. -/
theorem broadcast_delivers_witness :
    ((ConnectionManager.empty.connect "u" "d2" 2).connect "u" "d3" 3).broadcast_to_user
        "u" (some "d1") =
      [("d2", 2), ("d3", 3)] ∧
    ((ConnectionManager.empty.connect "u" "d2" 2).connect "u" "d3" 3).broadcast_to_user
        "other" (some "d1") = [] := by
  have h1 := broadcast_delivers_registered_except_excluded
    ((ConnectionManager.empty.connect "u" "d2" 2).connect "u" "d3" 3) "u" (some "d1")
    (by decide)
  have h2 := broadcast_delivers_registered_except_excluded
    ((ConnectionManager.empty.connect "u" "d2" 2).connect "u" "d3" 3) "other" (some "d1")
    (by decide)
  exact ⟨by rw [h1.1]; decide, h2.2 (by decide)⟩

/-- Claim C4: if the external generation engine call inside
`send_message` fails, the `DialogueSession` for the key is still in the
multiplexer's session map after the call (an existing session keeps its
exact state), and the returned value is the fixed safe fallback message,
not the raw upstream error text. -/
theorem send_failure_preserves_session :
    ∀ (g : GeminiService) (msg u : String) (c : Option String) (e : String),
      (g.send_message msg u c (.error e)).1 = sendFallback ∧
      (dictGet (g.send_message msg u c (.error e)).2._chat_sessions
          (sessionKey u c)).isSome = true ∧
      (∀ chat, dictGet g._chat_sessions (sessionKey u c) = some chat →
        dictGet (g.send_message msg u c (.error e)).2._chat_sessions
            (sessionKey u c) = some chat) := by
  intro g msg u c e
  rw [send_message_eq_error]
  refine ⟨rfl, ?_, ?_⟩
  · cases hg : dictGet g._chat_sessions (sessionKey u c) with
    | some chat => rw [get_or_create_eq_some g u c chat hg]; simp [hg]
    | none =>
      rw [get_or_create_eq_none g u c hg]
      simp [dictGet_dictSet_same]
  · intro chat hg
    rw [get_or_create_eq_some g u c chat hg]
    exact hg

/-- Witness for C4: a service whose `"u:default"` session exists sends a
message whose engine call fails; the fallback is returned and the session
is still there, unchanged. -/
theorem send_failure_preserves_session_witness :
    (((GeminiService.init._get_or_create_chat "u" none).2.send_message "hi" "u" none
        (.error "DeadlineExceeded: 504")).1 = sendFallback) ∧
    dictGet (((GeminiService.init._get_or_create_chat "u" none).2.send_message "hi" "u"
        none (.error "DeadlineExceeded: 504")).2._chat_sessions)
        (sessionKey "u" none) = some ⟨0, []⟩ := by
  have h := send_failure_preserves_session
    (GeminiService.init._get_or_create_chat "u" none).2 "hi" "u" none
    "DeadlineExceeded: 504"
  exact ⟨h.1, h.2.2 ⟨0, []⟩ (by decide)⟩

/-- Claim C6: session lookup is lazy and idempotent — a first use for an
absent key creates exactly one session; re-running the lookup on the
resulting state returns the same session handle and the same state; and
every reachable multiplexer state holds at most one session per key. -/
theorem session_lookup_lazy_idempotent :
    (∀ (g : GeminiService) (u : String) (c : Option String),
      dictGet g._chat_sessions (sessionKey u c) = none →
        countKey (g._get_or_create_chat u c).2._chat_sessions (sessionKey u c) = 1) ∧
    (∀ (g : GeminiService) (u : String) (c : Option String),
      (g._get_or_create_chat u c).2._get_or_create_chat u c =
        g._get_or_create_chat u c) ∧
    (∀ g, GReach g → ∀ k, countKey g._chat_sessions k ≤ 1) := by
  refine ⟨?_, ?_, ?_⟩
  · intro g u c hg
    rw [get_or_create_eq_none g u c hg]
    exact countKey_dictSet_of_get_none _ _ _ hg
  · intro g u c
    cases hg : dictGet g._chat_sessions (sessionKey u c) with
    | some chat =>
      rw [get_or_create_eq_some g u c chat hg, get_or_create_eq_some g u c chat hg]
    | none =>
      rw [get_or_create_eq_none g u c hg]
      exact get_or_create_eq_some _ u c _ (dictGet_dictSet_same _ _ _)
  · intro g hreach k
    have hwf := greach_gwf g hreach
    exact List.nodup_iff_count_le_one.mp hwf.1 k

/-- Witness for C6: from the fresh service, the key `"u:default"` is
absent; its first lookup creates exactly one entry, and re-running the
lookup is the identity; the fresh service is reachable and holds at most
one session per key. -/
theorem session_lookup_lazy_idempotent_witness :
    countKey (GeminiService.init._get_or_create_chat "u"
        none).2._chat_sessions (sessionKey "u" none) = 1 ∧
    countKey GeminiService.init._chat_sessions (sessionKey "u" none) ≤ 1 :=
  ⟨session_lookup_lazy_idempotent.1 GeminiService.init "u" none (by decide),
    session_lookup_lazy_idempotent.2.2 GeminiService.init GReach.init
      (sessionKey "u" none)⟩

/-- Claim C7: `clear_conversation` removes the session for the key if
present and is a no-op if absent (so it is idempotent), and a lookup
with the same key after a clear yields a freshly created session with
empty history — a different session identity carrying no prior-turn
content. -/
theorem reset_idempotent_and_fresh :
    (∀ (g : GeminiService) (u : String) (c : Option String),
      dictGet g._chat_sessions (sessionKey u c) = none →
        g.clear_conversation u c = g) ∧
    (∀ (g : GeminiService) (u : String) (c : Option String), GWF g →
      (g.clear_conversation u c).clear_conversation u c = g.clear_conversation u c) ∧
    (∀ (g : GeminiService) (u : String) (c : Option String), GWF g →
      ((g.clear_conversation u c)._get_or_create_chat u c).1.history = []) ∧
    (∀ (g : GeminiService) (u : String) (c : Option String) (chat : ChatSession),
      GWF g → dictGet g._chat_sessions (sessionKey u c) = some chat →
        ((g.clear_conversation u c)._get_or_create_chat u c).1.sid ≠ chat.sid) := by
  have hclear_get : ∀ (g : GeminiService) (u : String) (c : Option String), GWF g →
      dictGet (g.clear_conversation u c)._chat_sessions (sessionKey u c) = none := by
    intro g u c hwf
    cases hg : dictGet g._chat_sessions (sessionKey u c) with
    | none => rw [clear_eq_absent g u c hg]; exact hg
    | some chat =>
      rw [clear_eq_present g u c (by simp [hg])]
      exact dictGet_dictRemove_same _ _ hwf.1
  refine ⟨?_, ?_, ?_, ?_⟩
  · intro g u c hg
    exact clear_eq_absent g u c hg
  · intro g u c hwf
    exact clear_eq_absent _ u c (hclear_get g u c hwf)
  · intro g u c hwf
    rw [get_or_create_eq_none _ u c (hclear_get g u c hwf)]
  · intro g u c chat hwf hg
    rw [get_or_create_eq_none _ u c (hclear_get g u c hwf)]
    have hsid : chat.sid < g.nextSid := hwf.2 _ (dictGet_mem _ _ _ hg)
    have hnext : (g.clear_conversation u c).nextSid = g.nextSid := by
      unfold GeminiService.clear_conversation
      by_cases hk : (dictGet g._chat_sessions (sessionKey u c)).isSome
      · simp [hk]
      · simp [hk]
    simp only [hnext]
    omega

/-- Witness for C7: on a service holding the `"u:default"` session
`⟨0, []⟩`, clearing is idempotent and a fresh lookup after the clear
yields an empty history and a new session identity. -/
theorem reset_idempotent_and_fresh_witness :
    ((((GeminiService.init._get_or_create_chat "u" none).2.clear_conversation "u"
        none).clear_conversation "u" none) =
      (GeminiService.init._get_or_create_chat "u" none).2.clear_conversation "u" none) ∧
    ((((GeminiService.init._get_or_create_chat "u" none).2.clear_conversation "u"
        none)._get_or_create_chat "u" none).1.history = []) ∧
    ((((GeminiService.init._get_or_create_chat "u" none).2.clear_conversation "u"
        none)._get_or_create_chat "u" none).1.sid ≠ 0) := by
  refine ⟨reset_idempotent_and_fresh.2.1 _ "u" none (by decide),
    reset_idempotent_and_fresh.2.2.1 _ "u" none (by decide), ?_⟩
  exact reset_idempotent_and_fresh.2.2.2 _ "u" none ⟨0, []⟩ (by decide) (by decide)

theorem dictGet_append_single {α : Type} (l : List (String × α)) (k : String) (v : α)
    (h : dictGet l k = none) : dictGet (l ++ [(k, v)]) k = some v := by
  induction l with
  | nil => simp [dictGet]
  | cons p rest ih =>
    simp only [dictGet] at h
    by_cases hp : p.1 = k
    · simp [hp] at h
    · simp only [List.cons_append, dictGet, hp, if_false]
      exact ih (by simpa [hp] using h)

theorem dictSet_append_key {α : Type} (l : List (String × α)) (k : String) (v w : α)
    (h : dictGet l k = none) : dictSet (l ++ [(k, v)]) k w = l ++ [(k, w)] := by
  induction l with
  | nil => simp [dictSet]
  | cons p rest ih =>
    simp only [dictGet] at h
    by_cases hp : p.1 = k
    · simp [hp] at h
    · simp only [List.cons_append, dictSet, hp, if_false, List.cons.injEq, true_and]
      exact ih (by simpa [hp] using h)

theorem connect_eq_none (m : ConnectionManager) (u d : String) (h : Nat)
    (hg : dictGet m.active_connections u = none) :
    m.connect u d h = ⟨m.active_connections ++ [(u, [(d, h)])]⟩ := by
  simp only [ConnectionManager.connect, hg]
  rw [dictGet_dictSet_same]
  simp only [Option.getD_some]
  rw [dictSet_of_get_none _ _ _ hg, dictSet_append_key _ _ _ _ hg]
  rfl

theorem connect_eq_some (m : ConnectionManager) (u d : String) (h : Nat)
    (bucket : List (String × Nat))
    (hg : dictGet m.active_connections u = some bucket) :
    m.connect u d h = ⟨dictSet m.active_connections u (dictSet bucket d h)⟩ := by
  simp only [ConnectionManager.connect, hg, Option.getD_some]

theorem cmwf_connect (m : ConnectionManager) (u d : String) (h : Nat)
    (hwf : CMWF m) : CMWF (m.connect u d h) := by
  cases hg : dictGet m.active_connections u with
  | none =>
    rw [connect_eq_none m u d h hg]
    constructor
    · simp only [List.map_append]
      rw [List.nodup_append]
      refine ⟨hwf.1, by simp, ?_⟩
      intro x hx
      simp only [List.map_cons, List.map_nil, List.mem_cons, List.not_mem_nil,
        or_false]
      intro hxu
      rcases List.mem_map.mp hx with ⟨p, hp, hfst⟩
      exact dictGet_eq_none_forall _ _ hg p hp (by rw [hfst, hxu])
    · intro p hp
      rcases List.mem_append.mp hp with hmem | hmem
      · exact hwf.2 p hmem
      · simp only [List.mem_singleton] at hmem
        rw [hmem]
        simp
  | some bucket =>
    rw [connect_eq_some m u d h bucket hg]
    constructor
    · exact keys_dictSet_nodup _ _ _ hwf.1
    · intro p hp
      rcases mem_dictSet _ _ _ p hp with hmem | heq
      · exact hwf.2 p hmem
      · rw [heq]
        exact keys_dictSet_nodup _ _ _ (hwf.2 (u, bucket) (dictGet_mem _ _ _ hg))

theorem cmwf_disconnect (m : ConnectionManager) (u d : String)
    (hwf : CMWF m) : CMWF (m.disconnect u d) := by
  unfold ConnectionManager.disconnect
  cases hg : dictGet m.active_connections u with
  | none => exact hwf
  | some bucket =>
    simp only
    have hbn : (bucket.map Prod.fst).Nodup := hwf.2 (u, bucket) (dictGet_mem _ _ _ hg)
    have hb' : ∀ b' : List (String × Nat),
        b' = (if (dictGet bucket d).isSome then dictRemove bucket d else bucket) →
        (b'.map Prod.fst).Nodup := by
      intro b' hb
      by_cases hd : (dictGet bucket d).isSome
      · rw [hb]; simp only [hd, if_true]; exact keys_dictRemove_nodup _ _ hbn
      · rw [hb]; simp only [hd, if_false]; exact hbn
    by_cases hemp : (if (dictGet bucket d).isSome then dictRemove bucket d
        else bucket) = []
    · simp only [hemp, if_true]
      exact ⟨keys_dictRemove_nodup _ _ hwf.1,
        fun p hp => hwf.2 p ((dictRemove_sublist _ _).mem hp)⟩
    · simp only [hemp, if_false]
      constructor
      · exact keys_dictSet_nodup _ _ _ hwf.1
      · intro p hp
        rcases mem_dictSet _ _ _ p hp with hmem | heq
        · exact hwf.2 p hmem
        · rw [heq]
          exact hb' _ rfl

theorem cmreach_cmwf (m : ConnectionManager) (h : CMReach m) : CMWF m := by
  induction h with
  | empty => exact ⟨List.nodup_nil, by simp [ConnectionManager.empty]⟩
  | connect m u d hd _ ih => exact cmwf_connect m u d hd ih
  | disconnect m u d _ ih => exact cmwf_disconnect m u d ih

/-- On an association list with distinct keys, filtering for one key
yields nothing or a single entry. -/
theorem filter_key_of_nodup {α : Type} (l : List (String × α)) (k : String)
    (hn : (l.map Prod.fst).Nodup) :
    l.filter (fun p => p.1 = k) = [] ∨
      ∃ v, l.filter (fun p => p.1 = k) = [(k, v)] ∧ (k, v) ∈ l := by
  induction l with
  | nil => exact Or.inl rfl
  | cons p rest ih =>
    simp only [List.map_cons, List.nodup_cons] at hn
    by_cases hp : p.1 = k
    · right
      have hrest : rest.filter (fun q => q.1 = k) = [] := by
        rw [List.filter_eq_nil_iff]
        intro q hq
        simp only [decide_eq_true_eq]
        intro hqk
        exact hn.1 (hp ▸ hqk ▸ List.mem_map_of_mem Prod.fst hq)
      refine ⟨p.2, ?_, ?_⟩
      · rw [List.filter_cons_of_pos (by simpa using hp), hrest]
        cases p with
        | mk a b => simp only at hp; rw [hp]
      · cases p with
        | mk a b => simp only at hp; rw [hp] at *; exact List.mem_cons_self _ _
    · rw [List.filter_cons_of_neg (by simpa using hp)]
      rcases ih hn.2 with hnil | ⟨v, hv, hmem⟩
      · exact Or.inl hnil
      · exact Or.inr ⟨v, hv, List.mem_cons_of_mem _ hmem⟩

/-- Under well-formedness, the registry holds at most one handle per
`(user_id, device_id)` key. -/
theorem entriesFor_le_one (m : ConnectionManager) (hwf : CMWF m) (u d : String) :
    (m.entriesFor u d).length ≤ 1 := by
  unfold ConnectionManager.entriesFor
  rcases filter_key_of_nodup m.active_connections u hwf.1 with hnil | ⟨b, hb, hmem⟩
  · simp [hnil]
  · rw [hb]
    simp only [List.map_cons, List.map_nil, List.flatten_cons, List.flatten_nil,
      List.append_nil]
    rcases filter_key_of_nodup b d (hwf.2 (u, b) hmem) with hnil' | ⟨h, hh, _⟩
    · simp [hnil']
    · simp [hh]

/-- Claim C5, counterexample: `get_connection_count` guards with the
truthiness test `if user_id:`, so for the empty-string user it falls
back to the total connection count.  Starting from a registry where user
`"a"` has one device, registering `("", "d")` twice leaves exactly one
entry for the key resolving to the second handle — yet `count("") = 2`,
refuting `count(u) == 1` for every user `u`. -/
theorem count_empty_user_cex :
    ConnectionManager.entriesFor
        (((ConnectionManager.empty.connect "a" "x" 7).connect "" "d" 1).connect "" "d" 2)
        "" "d" = [2] ∧
    (((ConnectionManager.empty.connect "a" "x" 7).connect "" "d" 1).connect "" "d"
        2).get_connection_count (some "") = 2 := by
  decide

/-- Claim C5 as amended: for a non-falsy user id (`u ≠ ""`, since the
Python guard `if user_id:` sends the empty string to the total count),
`register(u,d,h1)` then `register(u,d,h2)` on a registry not yet holding
`u` leaves exactly one entry for `(u,d)`, resolving to `h2`, with
`count(u) == 1`; and every reachable registry state holds at most one
live connection per `(user_id, device_id)` key. -/
theorem register_replaces_handle :
    (∀ (m : ConnectionManager) (u d : String) (h1 h2 : Nat),
      dictGet m.active_connections u = none → u ≠ "" →
        ConnectionManager.entriesFor ((m.connect u d h1).connect u d h2) u d = [h2] ∧
        ((m.connect u d h1).connect u d h2).get_connection_count (some u) = 1) ∧
    (∀ m, CMReach m → ∀ u d, (ConnectionManager.entriesFor m u d).length ≤ 1) := by
  constructor
  · intro m u d h1 h2 hg hu
    have h1eq : m.connect u d h1 = ⟨m.active_connections ++ [(u, [(d, h1)])]⟩ :=
      connect_eq_none m u d h1 hg
    have hg1 : dictGet (m.active_connections ++ [(u, [(d, h1)])]) u =
        some [(d, h1)] := dictGet_append_single _ _ _ hg
    have h2eq : (m.connect u d h1).connect u d h2 =
        ⟨m.active_connections ++ [(u, [(d, h2)])]⟩ := by
      rw [h1eq]
      rw [connect_eq_some ⟨m.active_connections ++ [(u, [(d, h1)])]⟩ u d h2 [(d, h1)] hg1]
      have hinner : dictSet [(d, h1)] d h2 = [(d, h2)] := by simp [dictSet]
      rw [hinner, dictSet_append_key _ _ _ _ hg]
    have hfilter : m.active_connections.filter (fun p => p.1 = u) = [] := by
      rw [List.filter_eq_nil_iff]
      intro p hp
      simpa using dictGet_eq_none_forall _ _ hg p hp
    constructor
    · rw [h2eq]
      unfold ConnectionManager.entriesFor
      simp only [List.filter_append, hfilter, List.nil_append]
      simp [dictGet]
    · rw [h2eq]
      unfold ConnectionManager.get_connection_count
      simp only [hu, if_false]
      rw [dictGet_append_single _ _ _ hg]
      simp
  · intro m hreach u d
    exact entriesFor_le_one m (cmreach_cmwf m hreach) u d

/-- Witness for the amended C5: registering `("u","d")` twice from the
empty registry leaves the single entry `h2 = 2` with `count("u") = 1`,
and the empty registry (reachable) holds at most one connection per
key. -/
theorem register_replaces_handle_witness :
    (ConnectionManager.entriesFor ((ConnectionManager.empty.connect "u" "d" 1).connect
        "u" "d" 2) "u" "d" = [2] ∧
      ((ConnectionManager.empty.connect "u" "d" 1).connect "u" "d"
        2).get_connection_count (some "u") = 1) ∧
    (ConnectionManager.entriesFor ConnectionManager.empty "u" "d").length ≤ 1 :=
  ⟨register_replaces_handle.1 ConnectionManager.empty "u" "d" 1 2 (by decide)
      (by decide),
    register_replaces_handle.2 ConnectionManager.empty CMReach.empty "u" "d"⟩

/-- Claim C8: the streamed response is a finite chunk sequence ending
with the terminal `{"text": "", "done": true}` value, which differs from
every ordinary content chunk (those carry `done: false` and non-empty
text); and when the upstream engine fails mid-stream, the Gemini-level
sequence is the already-produced content chunks followed by exactly one
fallback chunk, after which it terminates. -/
theorem stream_ends_with_terminal :
    ∀ (upstream : List String) (failed : Bool),
      (generateSSE (geminiStreamChunks upstream failed)).getLast? =
        some ⟨"", true⟩ ∧
      (∀ x ∈ (generateSSE (geminiStreamChunks upstream failed)).dropLast,
        x.done = false ∧ x.text ≠ "" ∧ x ≠ ⟨"", true⟩) ∧
      (failed = true →
        geminiStreamChunks upstream failed =
          upstream.filter (fun c => c ≠ "") ++ [streamFallback]) := by
  intro upstream failed
  refine ⟨?_, ?_, ?_⟩
  · unfold generateSSE
    exact List.getLast?_concat _
  · intro x hx
    unfold generateSSE at hx
    rw [List.dropLast_concat] at hx
    rcases List.mem_map.mp hx with ⟨c, hc, hxc⟩
    have hcne : c ≠ "" := by
      unfold geminiStreamChunks at hc
      rcases List.mem_append.mp hc with hmem | hmem
      · exact of_decide_eq_true (List.mem_filter.mp hmem).2
      · cases failed with
        | true =>
          simp only [if_true, List.mem_singleton] at hmem
          rw [hmem]
          decide
        | false => simp at hmem
    refine ⟨by rw [← hxc], by rw [← hxc]; exact hcne, ?_⟩
    rw [← hxc]
    intro hcontra
    exact hcne (congrArg SSEChunk.text hcontra)
  · intro hf
    rw [hf]
    rfl

/-- Witness for C8: an upstream that produced `"Hel"`, an empty chunk and
`"lo"` and then failed yields the three ordinary chunks (the two
non-empty texts and the fallback) followed by the terminal marker. -/
theorem stream_ends_with_terminal_witness :
    (generateSSE (geminiStreamChunks ["Hel", "", "lo"] true)).getLast? =
      some ⟨"", true⟩ ∧
    (⟨"Hel", false⟩ : SSEChunk).done = false ∧
    geminiStreamChunks ["Hel", "", "lo"] true =
      ["Hel", "", "lo"].filter (fun c => c ≠ "") ++ [streamFallback] := by
  have h := stream_ends_with_terminal ["Hel", "", "lo"] true
  exact ⟨h.1, (h.2.1 ⟨"Hel", false⟩ (by decide)).1, h.2.2 rfl⟩

/-- Claim C9 (classifier modelled from the spec, which the source tree
only tests and calls): every text of the acknowledgment keyword set
classifies as `acknowledgment` with `is_acknowledgment = true`, and any
normalized text matched by the acknowledgment rule set classifies as
`acknowledgment` regardless of whether the later command rule set would
also match, because the acknowledgment rules are evaluated first in the
fixed priority order. -/
theorem classify_acknowledgment_first :
    (∀ t ∈ ackKeywords, (analyze_intent t).type = "acknowledgment" ∧
        (analyze_intent t).is_acknowledgment = true) ∧
    (∀ s : String, matchesAcknowledgment (normalizeText s) = true →
      (analyze_intent s).type = "acknowledgment" ∧
        (analyze_intent s).is_acknowledgment = true) := by
  constructor
  · decide
  · intro s hs
    simp [analyze_intent, hs]

/-- Witness for C9: the keyword `"got it"` and the close variant
`"yes please"` (which the acknowledgment rules match) both classify as
acknowledgments. -/
theorem classify_acknowledgment_first_witness :
    ((analyze_intent "got it").type = "acknowledgment" ∧
      (analyze_intent "got it").is_acknowledgment = true) ∧
    ((analyze_intent "yes please").type = "acknowledgment" ∧
      (analyze_intent "yes please").is_acknowledgment = true) :=
  ⟨classify_acknowledgment_first.1 "got it" (by decide),
    classify_acknowledgment_first.2 "yes please" (by decide)⟩

theorem goc_key_mem (g : GeminiService) (u : String) (c : Option String) :
    sessionKey u c ∈ (g._get_or_create_chat u c).2._chat_sessions.map Prod.fst := by
  cases hg : dictGet g._chat_sessions (sessionKey u c) with
  | some chat =>
    rw [get_or_create_eq_some g u c chat hg]
    exact dictGet_mem_keys _ _ _ hg
  | none =>
    rw [get_or_create_eq_none g u c hg]
    exact keys_dictSet_mem _ _ _

theorem send_key_mem (g : GeminiService) (msg u : String) (c : Option String)
    (engine : Except String String) :
    sessionKey u c ∈
      (g.send_message msg u c engine).2._chat_sessions.map Prod.fst := by
  cases engine with
  | error e =>
    rw [send_message_eq_error]
    exact goc_key_mem g u c
  | ok text =>
    rw [send_message_eq_ok]
    exact keys_dictSet_mem _ _ _

/-- Claim C10, counterexample: `get_active_conversations` recovers the
conversation id with `key.replace(prefix, "")`, and Python `replace`
removes every occurrence of the prefix, not only the leading one.  After
a send for user `"u"` and conversation `"u:x"` (whose id contains the
`"u:"` prefix as a substring) the query returns `["x"]`, which does not
contain `"u:x"`; and a send for the conversation id `""` (falsy, keyed
as `"default"`) is reported as `"default"`. -/
theorem active_conversations_cex :
    ((GeminiService.init.send_message "hi" "u" (some "u:x")
        (.ok "resp")).2.get_active_conversations "u" = ["x"]) ∧
    ("u:x" ∉ (GeminiService.init.send_message "hi" "u" (some "u:x")
        (.ok "resp")).2.get_active_conversations "u") ∧
    ((GeminiService.init.send_message "hi" "u" (some "")
        (.ok "resp")).2.get_active_conversations "u" = ["default"]) := by
  decide

/-- Claim C10 as amended: after a send for `(u, c)` with no intervening
reset, the active-conversations query for `u` returns a list containing
`c` exactly as given, provided `c` is non-empty (the empty id is keyed
as `"default"`) and `c` does not contain the `"u:"` prefix as a
substring (every occurrence of the prefix is removed by the
id-recovering `replace`). -/
theorem active_conversations_roundtrip :
    ∀ (g : GeminiService) (msg u c : String) (engine : Except String String),
      c ≠ "" → listContains (u ++ ":").data c.data = false →
      c ∈ (g.send_message msg u (some c) engine).2.get_active_conversations u := by
  intro g msg u c engine hc hsub
  have hkey : sessionKey u (some c) = (u ++ ":") ++ c := by
    simp [sessionKey, hc]
  have hdata : ((u ++ ":") ++ c).data = (u ++ ":").data ++ c.data := rfl
  have hpre_ne : (u ++ ":").data ≠ [] := by
    have : (u ++ ":").data = u.data ++ [':'] := rfl
    rw [this]
    simp
  have hmem := send_key_mem g msg u (some c) engine
  rw [hkey] at hmem
  unfold GeminiService.get_active_conversations
  refine List.mem_map.mpr ⟨(u ++ ":") ++ c, List.mem_filter.mpr ⟨hmem, ?_⟩, ?_⟩
  · unfold strStarts
    rw [hdata]
    exact listStarts_self_append _ _
  · unfold pyReplaceEmpty
    rw [hdata, removeAll_append_self _ _ hpre_ne, removeAll_of_not_contains _ _ hsub]

/-- Witness for the amended C10: after a send for `("user123",
"work-chat")` the query for `"user123"` contains `"work-chat"`. -/
theorem active_conversations_roundtrip_witness :
    "work-chat" ∈ (GeminiService.init.send_message "hi" "user123" (some "work-chat")
        (.ok "resp")).2.get_active_conversations "user123" :=
  active_conversations_roundtrip GeminiService.init "hi" "user123" "work-chat"
    (.ok "resp") (by decide) (by decide)
